import Mathlib

/-!
# pvxs `evhelper.h`: address wire codec and owning handles

A shallow embedding of `src/evhelper.h`:

* `owned_ptr`  - the `unique_ptr` that is never constructed with NULL;
* `evsocket`   - the socket wrapper, its default constructor and validity test;
* `to_wire` / `from_wire` for `SockAddr` - the fixed 16-byte address field
  (IPv4 addresses travel as IPv4-mapped IPv6 addresses).

The buffer type `Buf` and `SockAddr` are declared in headers that are not part
of the examined source; they are modelled below from the specification.
-/

namespace pvxs

/-! ## Octets and fixed-size octet arrays -/

/-- One octet (`uint8_t`). -/
abbrev Byte := Fin 256

/-- A fixed-size octet array `uint8_t[n]`. -/
abbrev Bytes (n : Nat) := { l : List Byte // l.length = n }

/-! ## The buffer capability -/

/-- Modelled from the spec: the buffer capability `Buf` (declared in
`pvaproto.h`, which is not in the examined source).  "An abstract cursor over a
byte sequence": `data` is the byte sequence, `pos` the cursor, `err` the sticky
fault flag. -/
structure Buffer where
  data : List Byte
  pos : Nat
  err : Bool
deriving DecidableEq, Repr

namespace Buffer

/-- Number of bytes available at the cursor. -/
def size (b : Buffer) : Nat := b.data.length - b.pos

/-- Modelled from the spec: `fault()` sets the sticky fault flag. -/
def fault (b : Buffer) : Buffer := { b with err := true }

/-- Modelled from the spec: `ensure(n)` - "guarantee n more bytes are available
for the next operation, returning false and setting a sticky fault flag
otherwise". -/
def ensure (b : Buffer) (n : Nat) : Bool × Buffer :=
  if n ≤ b.size then (true, b) else (false, b.fault)

/-- Modelled from the spec: `save()` - "a stable reference to the current
cursor position for bulk copy". -/
def save (b : Buffer) : Nat := b.pos

/-- Modelled from the spec: `skip(n)` - "advance the cursor by n bytes". -/
def _skip (b : Buffer) (n : Nat) : Buffer := { b with pos := b.pos + n }

/-- Modelled from the spec: indexed byte access, reading `buf[i]`. -/
def get (b : Buffer) (i : Nat) : Byte := b.data.getD (b.pos + i) 0

/-- Modelled from the spec: indexed byte access, the assignment `buf[i] = v`. -/
def set (b : Buffer) (i : Nat) (v : Byte) : Buffer :=
  { b with data := b.data.set (b.pos + i) v }

/-- The `n` bytes of the underlying sequence starting at absolute position `p`. -/
def bytesAt (b : Buffer) (p n : Nat) : List Byte := (b.data.drop p).take n

end Buffer

/-- Store the octets `src` into `d` from position `dst` on: the effect of
`memcpy(base + dst, src, |src|)` on the destination storage. -/
def poke : List Byte → Nat → List Byte → List Byte
  | d, _, [] => d
  | d, dst, x :: xs => poke (d.set dst x) (dst + 1) xs

/-- Bulk copy into the buffer storage: `memcpy(dst, src, n)` where `dst` is a
position obtained from `save()`. -/
def Buffer.memcpy_in (b : Buffer) (dst : Nat) (src : List Byte) : Buffer :=
  { b with data := poke b.data dst src }

/-- Bulk copy out of the buffer storage: `memcpy(&out, src, n)` where `src` is a
position obtained from `save()`. -/
def Buffer.memcpy_out (b : Buffer) (src n : Nat) : Bytes n :=
  ⟨(List.range n).map (fun k => b.data.getD (src + k) 0), by simp⟩

/-! ## Socket addresses -/

/-- Address family tag of a socket address. -/
inductive sa_family_t
  | AF_INET
  | AF_INET6
  | other (code : Nat)
deriving DecidableEq, Repr

/-- The IPv4 view `sockaddr_in` (without its family tag and padding). -/
structure sockaddr_in where
  sin_port : Nat
  sin_addr : Bytes 4
deriving DecidableEq

/-- The IPv6 view `sockaddr_in6` (without its family tag). -/
structure sockaddr_in6 where
  sin6_port : Nat
  sin6_flowinfo : Nat
  sin6_addr : Bytes 16
  sin6_scope_id : Nat
deriving DecidableEq

/-- Modelled from the spec: `SockAddr` (declared in `utilpvt.h`, which is not in
the examined source), a tagged union of the socket address views; the family tag
selects the view that is meaningful. -/
inductive SockAddr
  | in4 (a : sockaddr_in)
  | in6 (a : sockaddr_in6)
  | sa (code : Nat)
deriving DecidableEq

namespace SockAddr

/-- The accessor `family()`. -/
def family : SockAddr → sa_family_t
  | in4 _ => sa_family_t.AF_INET
  | in6 _ => sa_family_t.AF_INET6
  | sa c => sa_family_t.other c

/-- The address octets carried by a socket address: 4 for IPv4, 16 for IPv6. -/
def addrBytes : SockAddr → List Byte
  | in4 a => a.sin_addr.val
  | in6 a => a.sin6_addr.val
  | sa _ => []

end SockAddr

/-! ## The address codec -/

/-- Encoder `to_wire(Buf&, const SockAddr&)`. -/
def to_wire (buf : Buffer) (val : SockAddr) : Buffer :=
  let r := buf.ensure 16
  if !r.1 then
    r.2.fault
  else
    let buf := r.2
    match val with
    | SockAddr.in4 a =>
      -- val.family()==AF_INET
      let buf := (List.range 10).foldl (fun b i => b.set i 0) buf
      let buf := buf.set 11 0xff
      let buf := buf.set 10 0xff
      let buf := buf.memcpy_in (buf.save + 12) a.sin_addr.val
      buf._skip 16
    | SockAddr.in6 a =>
      -- val.family()==AF_INET6
      let buf := buf.memcpy_in buf.save a.sin6_addr.val
      buf._skip 16
    | SockAddr.sa _ => buf._skip 16

/-- The flag `ismapped` computed by `from_wire` (its lines 115-119): the field at
the cursor carries the IPv4-mapped marker. -/
def from_wire.ismapped (buf : Buffer) : Bool :=
  let ismapped := true
  let ismapped := (List.range 10).foldl (fun m i => m && (buf.get i == 0)) ismapped
  let ismapped := ismapped && (buf.get 10 == 0xff)
  let ismapped := ismapped && (buf.get 11 == 0xff)
  ismapped

/-- Decoder `from_wire(Buf&, SockAddr&)`: returns the buffer and the address
variable after the call. -/
def from_wire (buf : Buffer) (val : SockAddr) : Buffer × SockAddr :=
  let r := buf.ensure 16
  if !r.1 then
    (r.2.fault, val)
  else
    let buf := r.2
    if from_wire.ismapped buf then
      -- val->in = {}; sin_family = AF_INET; copy 4 octets from save()+12
      let val := SockAddr.in4 { sin_port := 0, sin_addr := buf.memcpy_out (buf.save + 12) 4 }
      (buf._skip 16, val)
    else
      -- val->in6 = {}; sin6_family = AF_INET6; copy 16 octets from save()
      let val := SockAddr.in6 { sin6_port := 0, sin6_flowinfo := 0,
                                sin6_addr := buf.memcpy_out buf.save 16,
                                sin6_scope_id := 0 }
      (buf._skip 16, val)

/-- The IPv4-mapped marker on a wire field: octets 0..9 are zero and octets 10
and 11 are `0xFF`. -/
def isV4Mapped (w : List Byte) : Prop :=
  (∀ i, i < 10 → w[i]? = some 0) ∧ w[10]? = some 0xff ∧ w[11]? = some 0xff

instance (w : List Byte) : Decidable (isV4Mapped w) := by
  unfold isV4Mapped; infer_instance

/-! ## Owning handles -/

/-- Errors raised by handle construction. -/
inductive Exception
  | bad_alloc
deriving DecidableEq, Repr

/-- A `std::unique_ptr<T>`: the raw pointer it holds, `0` being the null
pointer. -/
structure unique_ptr where
  ptr : Nat
deriving DecidableEq, Repr

/-- Contextual conversion `operator bool` of `unique_ptr`: true when a non-null
pointer is held. -/
def unique_ptr.toBool (p : unique_ptr) : Bool := p.ptr != 0

/-- The constructor `owned_ptr(T* ptr)`: initialise the base `unique_ptr` with
`ptr`, then throw `std::bad_alloc` when it tests false. -/
def owned_ptr (ptr : Nat) : Except Exception unique_ptr :=
  let this : unique_ptr := { ptr := ptr }
  if !this.toBool then
    Except.error Exception.bad_alloc
  else
    Except.ok this

/-! ## Sockets -/

/-- The socket wrapper `evsocket`: the descriptor `sock` it holds
(`evutil_socket_t`), `-1` being the invalid descriptor. -/
structure evsocket where
  sock : Int
deriving DecidableEq, Repr

/-- The default constructor `evsocket()`: "default construct an invalid
socket", `sock(-1)`. -/
def evsocket.construct : evsocket := { sock := -1 }

/-- The validity test `operator bool`: `sock != -1`. -/
def evsocket.toBool (s : evsocket) : Bool := s.sock != -1

/-! ## Sample inputs -/

/-- An un-faulted buffer of twenty octets with its cursor at offset 2. -/
def sampleBuf : Buffer := { data := List.replicate 20 7, pos := 2, err := false }

/-- An un-faulted buffer with only four octets available at its cursor. -/
def shortBuf : Buffer := { data := [1, 2, 3, 4], pos := 0, err := false }

/-- The IPv4 socket address 192.168.1.2, port 5076. -/
def sampleIn4 : sockaddr_in := { sin_port := 5076, sin_addr := ⟨[192, 168, 1, 2], rfl⟩ }

/-- The IPv6 socket address 2001:db8::1, port 5076. -/
def sampleIn6 : sockaddr_in6 :=
  { sin6_port := 5076, sin6_flowinfo := 0,
    sin6_addr := ⟨[0x20, 0x01, 0x0d, 0xb8, 0, 0, 0, 0, 0, 0, 0, 0, 0, 0, 0, 1], rfl⟩,
    sin6_scope_id := 0 }

/-- The IPv6 socket address ::ffff:192.168.1.2 (an IPv4-mapped IPv6 address). -/
def mappedIn6 : sockaddr_in6 :=
  { sin6_port := 0, sin6_flowinfo := 0,
    sin6_addr := ⟨[0, 0, 0, 0, 0, 0, 0, 0, 0, 0, 0xff, 0xff, 192, 168, 1, 2], rfl⟩,
    sin6_scope_id := 0 }

/-- A reader positioned on the field that `to_wire` wrote at the cursor of `b`:
the bytes of the written buffer, the cursor where it was before the write. -/
def readBack (b : Buffer) (a : SockAddr) : Buffer :=
  { data := (to_wire b a).data, pos := b.pos, err := false }

/-! ## Auxiliary facts about the buffer model -/

theorem Buffer.ensure_fst (b : Buffer) (n : Nat) : (b.ensure n).1 = decide (n ≤ b.size) := by
  unfold Buffer.ensure
  by_cases h : n ≤ b.size <;> simp [h]

theorem Buffer.ensure_of_le (b : Buffer) (n : Nat) (h : n ≤ b.size) : b.ensure n = (true, b) := by
  simp [Buffer.ensure, h]

theorem Buffer.ensure_of_lt (b : Buffer) (n : Nat) (h : b.size < n) :
    b.ensure n = (false, b.fault) := by
  simp [Buffer.ensure, Nat.not_le.mpr h]

theorem Buffer.le_length_of_size (b : Buffer) (n : Nat) (hn : 0 < n) (h : n ≤ b.size) :
    b.pos + n ≤ b.data.length := by
  unfold Buffer.size at h; omega

theorem length_poke (src : List Byte) : ∀ (d : List Byte) (dst : Nat),
    (poke d dst src).length = d.length := by
  induction src with
  | nil => intro d dst; rfl
  | cons x xs ih => intro d dst; simp [poke, ih]

theorem poke_append (xs ys : List Byte) : ∀ (d : List Byte) (dst : Nat),
    poke d dst (xs ++ ys) = poke (poke d dst xs) (dst + xs.length) ys := by
  induction xs with
  | nil => intro d dst; simp [poke]
  | cons x xs ih =>
    intro d dst
    rw [List.cons_append, poke, poke, ih, List.length_cons,
      show dst + 1 + xs.length = dst + (xs.length + 1) by omega]

theorem getElem?_poke (src : List Byte) : ∀ (d : List Byte) (dst j : Nat),
    dst + src.length ≤ d.length →
    (poke d dst src)[j]? =
      if dst ≤ j ∧ j < dst + src.length then src[j - dst]? else d[j]? := by
  induction src with
  | nil =>
    intro d dst j _
    have : ¬ (dst ≤ j ∧ j < dst + ([] : List Byte).length) := by simp
    rw [if_neg this]; rfl
  | cons x xs ih =>
    intro d dst j h
    simp only [List.length_cons] at h
    rw [poke, ih _ _ _ (by simp; omega), List.getElem?_set]
    by_cases h1 : dst = j
    · subst h1
      have h2 : ¬ (dst + 1 ≤ dst ∧ dst < dst + 1 + xs.length) := by omega
      have h3 : dst ≤ dst ∧ dst < dst + (x :: xs).length := by simp
      have h4 : dst < d.length := by omega
      rw [if_neg h2, if_pos h3]
      simp [h4]
    · by_cases h2 : dst + 1 ≤ j ∧ j < dst + 1 + xs.length
      · have h3 : dst ≤ j ∧ j < dst + (x :: xs).length := by simp; omega
        rw [if_pos h2, if_pos h3]
        obtain ⟨k, hk⟩ : ∃ k, j - dst = k + 1 := ⟨j - dst - 1, by omega⟩
        have : j - (dst + 1) = k := by omega
        rw [hk, this]; simp
      · have h3 : ¬ (dst ≤ j ∧ j < dst + (x :: xs).length) := by simp; omega
        rw [if_neg h2, if_neg h3]
        simp [h1]

/-- After a bulk copy the destination range holds the copied octets. -/
theorem drop_take_poke (src d : List Byte) (dst : Nat) (h : dst + src.length ≤ d.length) :
    ((poke d dst src).drop dst).take src.length = src := by
  apply List.ext_getElem?
  intro i
  rw [List.getElem?_take, List.getElem?_drop, getElem?_poke src d dst (dst + i) h]
  by_cases hi : i < src.length
  · have : dst ≤ dst + i ∧ dst + i < dst + src.length := by omega
    simp [hi, this]
  · simp [hi, List.getElem?_eq_none (Nat.le_of_not_lt hi)]

theorem Buffer.bytesAt_eq_map (b : Buffer) (p n : Nat) (h : p + n ≤ b.data.length) :
    b.bytesAt p n = (List.range n).map (fun i => b.data.getD (p + i) 0) := by
  apply List.ext_getElem?
  intro i
  simp only [Buffer.bytesAt, List.getElem?_take, List.getElem?_drop, List.getElem?_map,
    List.getElem?_range]
  by_cases hi : i < n
  · have : p + i < b.data.length := by omega
    simp [hi, List.getD_eq_getElem?_getD, List.getElem?_eq_getElem this]
  · have : (List.range n)[i]? = none := List.getElem?_eq_none (by simp; omega)
    simp [hi, this]

theorem Buffer.memcpy_out_val (b : Buffer) (p n : Nat) (h : p + n ≤ b.data.length) :
    (b.memcpy_out p n).val = b.bytesAt p n := by
  rw [Buffer.bytesAt_eq_map b p n h]; rfl

theorem Buffer.bytesAt_length (b : Buffer) (p n : Nat) (h : p + n ≤ b.data.length) :
    (b.bytesAt p n).length = n := by
  simp [Buffer.bytesAt]; omega

theorem Buffer.bytesAt_drop (b : Buffer) (p n k : Nat) :
    (b.bytesAt p n).drop k = b.bytesAt (p + k) (n - k) := by
  simp [Buffer.bytesAt, List.drop_take, List.drop_drop, Nat.add_comm]

theorem Buffer.getElem?_bytesAt (b : Buffer) (i n : Nat) (hi : i < n)
    (h : b.pos + n ≤ b.data.length) : (b.bytesAt b.pos n)[i]? = some (b.get i) := by
  have : b.pos + i < b.data.length := by omega
  simp [Buffer.bytesAt, Buffer.get, List.getElem?_take, hi, List.getElem?_drop,
    List.getD_eq_getElem?_getD, List.getElem?_eq_getElem this]

theorem range10_foldl_set (b : Buffer) :
    (List.range 10).foldl (fun b i => b.set i 0) b
      = { b with data := poke b.data b.pos (List.replicate 10 0) } := by
  rfl

theorem to_wire_in4_eq (b : Buffer) (a : sockaddr_in) (hsz : 16 ≤ b.size) :
    to_wire b (SockAddr.in4 a) =
      { data := poke b.data b.pos (List.replicate 10 0 ++ [0xff, 0xff] ++ a.sin_addr.val),
        pos := b.pos + 16, err := b.err } := by
  have hlen := b.le_length_of_size 16 (by decide) hsz
  simp only [to_wire, Buffer.ensure_of_le b 16 hsz, range10_foldl_set, Bool.not_true,
    Bool.false_eq_true, if_false]
  simp only [Buffer.set, Buffer.memcpy_in, Buffer.save, Buffer._skip]
  rw [List.set_comm _ _ _ (by omega : b.pos + 11 ≠ b.pos + 10), poke_append, poke_append]
  simp only [List.length_replicate, List.length_append, List.length_cons, List.length_nil, poke]

theorem to_wire_in6_eq (b : Buffer) (a : sockaddr_in6) (hsz : 16 ≤ b.size) :
    to_wire b (SockAddr.in6 a) =
      { data := poke b.data b.pos a.sin6_addr.val, pos := b.pos + 16, err := b.err } := by
  simp [to_wire, Buffer.ensure_of_le b 16 hsz, Buffer.memcpy_in, Buffer.save, Buffer._skip]

theorem to_wire_in4_window (b : Buffer) (a : sockaddr_in) (hsz : 16 ≤ b.size) :
    (to_wire b (SockAddr.in4 a)).bytesAt b.pos 16
      = List.replicate 10 0 ++ [0xff, 0xff] ++ a.sin_addr.val := by
  have hlen := b.le_length_of_size 16 (by decide) hsz
  rw [to_wire_in4_eq b a hsz]
  have h16 : (List.replicate 10 (0 : Byte) ++ [0xff, 0xff] ++ a.sin_addr.val).length = 16 := by
    simp [a.sin_addr.property]
  have := drop_take_poke (List.replicate 10 0 ++ [0xff, 0xff] ++ a.sin_addr.val) b.data b.pos
    (by rw [h16]; exact hlen)
  rw [h16] at this
  exact this

theorem to_wire_in6_window (b : Buffer) (a : sockaddr_in6) (hsz : 16 ≤ b.size) :
    (to_wire b (SockAddr.in6 a)).bytesAt b.pos 16 = a.sin6_addr.val := by
  have hlen := b.le_length_of_size 16 (by decide) hsz
  rw [to_wire_in6_eq b a hsz]
  have := drop_take_poke a.sin6_addr.val b.data b.pos (by rw [a.sin6_addr.property]; exact hlen)
  rw [a.sin6_addr.property] at this
  exact this

theorem ismapped_iff_get (b : Buffer) :
    from_wire.ismapped b = true ↔
      (∀ i, i < 10 → b.get i = 0) ∧ b.get 10 = 0xff ∧ b.get 11 = 0xff := by
  have hr : List.range 10 = [0, 1, 2, 3, 4, 5, 6, 7, 8, 9] := by decide
  simp only [from_wire.ismapped, hr, List.foldl, Bool.true_and, Bool.and_eq_true, beq_iff_eq]
  constructor
  · rintro ⟨⟨⟨⟨⟨⟨⟨⟨⟨⟨⟨h0, h1⟩, h2⟩, h3⟩, h4⟩, h5⟩, h6⟩, h7⟩, h8⟩, h9⟩, h10⟩, h11⟩
    refine ⟨?_, h10, h11⟩
    intro i hi
    interval_cases i <;> assumption
  · rintro ⟨h, h10, h11⟩
    exact ⟨⟨⟨⟨⟨⟨⟨⟨⟨⟨⟨h 0 (by decide), h 1 (by decide)⟩, h 2 (by decide)⟩, h 3 (by decide)⟩,
      h 4 (by decide)⟩, h 5 (by decide)⟩, h 6 (by decide)⟩, h 7 (by decide)⟩, h 8 (by decide)⟩,
      h 9 (by decide)⟩, h10⟩, h11⟩

theorem ismapped_iff_window (b : Buffer) (hlen : b.pos + 16 ≤ b.data.length) :
    from_wire.ismapped b = true ↔ isV4Mapped (b.bytesAt b.pos 16) := by
  rw [ismapped_iff_get, isV4Mapped]
  rw [b.getElem?_bytesAt 10 16 (by decide) hlen, b.getElem?_bytesAt 11 16 (by decide) hlen]
  simp only [Option.some.injEq]
  constructor
  · rintro ⟨h, h10, h11⟩
    refine ⟨fun i hi => ?_, h10, h11⟩
    rw [b.getElem?_bytesAt i 16 (by omega) hlen, h i hi]
  · rintro ⟨h, h10, h11⟩
    refine ⟨fun i hi => ?_, h10, h11⟩
    have := h i hi
    rw [b.getElem?_bytesAt i 16 (by omega) hlen] at this
    exact Option.some.inj this

theorem from_wire_eq (b : Buffer) (v : SockAddr) (hsz : 16 ≤ b.size) :
    from_wire b v =
      (b._skip 16,
        if from_wire.ismapped b then
          SockAddr.in4 { sin_port := 0, sin_addr := b.memcpy_out (b.pos + 12) 4 }
        else
          SockAddr.in6 { sin6_port := 0, sin6_flowinfo := 0,
                         sin6_addr := b.memcpy_out b.pos 16, sin6_scope_id := 0 }) := by
  simp only [from_wire, Buffer.ensure_of_le b 16 hsz, Bool.not_true, Bool.false_eq_true,
    if_false, Buffer.save]
  split <;> rfl

theorem from_wire_fail (b : Buffer) (v : SockAddr) (hsz : b.size < 16) :
    from_wire b v = (b.fault, v) := by
  simp [from_wire, Buffer.ensure_of_lt b 16 hsz, Buffer.fault]

theorem to_wire_fail (b : Buffer) (a : SockAddr) (hsz : b.size < 16) :
    to_wire b a = b.fault := by
  simp [to_wire, Buffer.ensure_of_lt b 16 hsz, Buffer.fault]

theorem to_wire_sa_eq (b : Buffer) (c : Nat) (hsz : 16 ≤ b.size) :
    to_wire b (SockAddr.sa c) = b._skip 16 := by
  simp [to_wire, Buffer.ensure_of_le b 16 hsz]

/-- The address decoded from a field that carries the IPv4-mapped marker. -/
theorem from_wire_mapped (b : Buffer) (v : SockAddr) (hsz : 16 ≤ b.size)
    (hm : isV4Mapped (b.bytesAt b.pos 16)) :
    ∃ a : sockaddr_in, (from_wire b v).2 = SockAddr.in4 a ∧ a.sin_port = 0 ∧
      a.sin_addr.val = (b.bytesAt b.pos 16).drop 12 := by
  have hlen := b.le_length_of_size 16 (by decide) hsz
  refine ⟨{ sin_port := 0, sin_addr := b.memcpy_out (b.pos + 12) 4 }, ?_, rfl, ?_⟩
  · rw [from_wire_eq b v hsz, if_pos ((ismapped_iff_window b hlen).mpr hm)]
  · rw [Buffer.memcpy_out_val b (b.pos + 12) 4 (by omega), Buffer.bytesAt_drop]

/-- The address decoded from a field that does not carry the IPv4-mapped marker. -/
theorem from_wire_unmapped (b : Buffer) (v : SockAddr) (hsz : 16 ≤ b.size)
    (hm : ¬ isV4Mapped (b.bytesAt b.pos 16)) :
    ∃ a : sockaddr_in6, (from_wire b v).2 = SockAddr.in6 a ∧ a.sin6_port = 0 ∧
      a.sin6_flowinfo = 0 ∧ a.sin6_scope_id = 0 ∧ a.sin6_addr.val = b.bytesAt b.pos 16 := by
  have hlen := b.le_length_of_size 16 (by decide) hsz
  refine ⟨{ sin6_port := 0, sin6_flowinfo := 0, sin6_addr := b.memcpy_out b.pos 16,
            sin6_scope_id := 0 }, ?_, rfl, rfl, rfl, ?_⟩
  · have : ¬ (from_wire.ismapped b = true) := fun h => hm ((ismapped_iff_window b hlen).mp h)
    rw [from_wire_eq b v hsz, if_neg this]
  · rw [Buffer.memcpy_out_val b b.pos 16 hlen]

/-! ## The claims -/

/-- C1 (as stated, refuted): an IPv6 address that is itself IPv4-mapped
(`::ffff:192.168.1.2`) is written verbatim by `to_wire` and read back by
`from_wire` as an IPv4 address, so the family is not preserved. -/
theorem roundtrip_mapped_in6_counterexample :
    sampleBuf.err = false ∧ 16 ≤ sampleBuf.size ∧
    (SockAddr.in6 mappedIn6).family = sa_family_t.AF_INET6 ∧
    (from_wire (readBack sampleBuf (SockAddr.in6 mappedIn6)) (SockAddr.sa 0)).2.family
      = sa_family_t.AF_INET ∧
    (from_wire (readBack sampleBuf (SockAddr.in6 mappedIn6)) (SockAddr.sa 0)).2.addrBytes
      ≠ (SockAddr.in6 mappedIn6).addrBytes := by
  decide

/-- C1 (amended): for every IPv4 address, and every IPv6 address whose 16 bytes
do not carry the IPv4-mapped marker, encoding with `to_wire` into an un-faulted
buffer with 16 bytes available and decoding with `from_wire` from any un-faulted
buffer holding the 16 written bytes at its cursor yields an address of the same
family with the same address bytes. -/
theorem to_wire_from_wire_roundtrip (b rd : Buffer) (a v : SockAddr)
    (_herr : b.err = false) (hsz : 16 ≤ b.size)
    (hfam : a.family = sa_family_t.AF_INET ∨
      (a.family = sa_family_t.AF_INET6 ∧ ¬ isV4Mapped a.addrBytes))
    (_hrerr : rd.err = false) (hrsz : 16 ≤ rd.size)
    (hrd : rd.bytesAt rd.pos 16 = (to_wire b a).bytesAt b.pos 16) :
    (from_wire rd v).2.family = a.family ∧ (from_wire rd v).2.addrBytes = a.addrBytes := by
  cases a with
  | in4 a4 =>
    rw [to_wire_in4_window b a4 hsz] at hrd
    have hm : isV4Mapped (rd.bytesAt rd.pos 16) := by
      rw [hrd]
      refine ⟨fun i hi => ?_, by simp, by simp⟩
      interval_cases i <;> simp
    obtain ⟨r, hr, _, hval⟩ := from_wire_mapped rd v hrsz hm
    rw [hr]
    refine ⟨rfl, ?_⟩
    simp only [SockAddr.addrBytes]
    rw [hval, hrd]
    simp
  | in6 a6 =>
    rcases hfam with h | ⟨_, hn⟩
    · simp [SockAddr.family] at h
    · rw [to_wire_in6_window b a6 hsz] at hrd
      have hm : ¬ isV4Mapped (rd.bytesAt rd.pos 16) := by rw [hrd]; exact hn
      obtain ⟨r, hr, _, _, _, hval⟩ := from_wire_unmapped rd v hrsz hm
      rw [hr]
      exact ⟨rfl, by simp only [SockAddr.addrBytes]; rw [hval, hrd]⟩
  | sa c =>
    rcases hfam with h | ⟨h, _⟩ <;> simp [SockAddr.family] at h

theorem to_wire_from_wire_roundtrip_witness :
    (from_wire (readBack sampleBuf (SockAddr.in6 sampleIn6)) (SockAddr.sa 0)).2.family
      = (SockAddr.in6 sampleIn6).family ∧
    (from_wire (readBack sampleBuf (SockAddr.in6 sampleIn6)) (SockAddr.sa 0)).2.addrBytes
      = (SockAddr.in6 sampleIn6).addrBytes :=
  to_wire_from_wire_roundtrip sampleBuf (readBack sampleBuf (SockAddr.in6 sampleIn6))
    (SockAddr.in6 sampleIn6) (SockAddr.sa 0) (by decide) (by decide)
    (Or.inr (by decide)) (by decide) (by decide) (by decide)

/-- C2: for an un-faulted buffer with a 16-byte field available at the cursor,
`from_wire` produces an IPv4 address exactly when the field carries the
IPv4-mapped marker (bytes 0..9 zero, bytes 10 and 11 equal to 0xFF); every other
field, the all-zero field included, produces an IPv6 address. -/
theorem from_wire_classification (b : Buffer) (v : SockAddr)
    (_herr : b.err = false) (hsz : 16 ≤ b.size) :
    ((from_wire b v).2.family = sa_family_t.AF_INET ↔ isV4Mapped (b.bytesAt b.pos 16)) ∧
    (¬ isV4Mapped (b.bytesAt b.pos 16) → (from_wire b v).2.family = sa_family_t.AF_INET6) ∧
    (b.bytesAt b.pos 16 = List.replicate 16 0 →
      (from_wire b v).2.family = sa_family_t.AF_INET6) := by
  have hun : ¬ isV4Mapped (b.bytesAt b.pos 16) →
      (from_wire b v).2.family = sa_family_t.AF_INET6 := by
    intro hm
    obtain ⟨r, hr, _⟩ := from_wire_unmapped b v hsz hm
    rw [hr]; rfl
  refine ⟨⟨fun h => ?_, fun hm => ?_⟩, hun, fun hz => hun ?_⟩
  · by_contra hm
    rw [hun hm] at h
    exact absurd h (by decide)
  · obtain ⟨r, hr, _⟩ := from_wire_mapped b v hsz hm
    rw [hr]; rfl
  · rw [hz]; decide

theorem from_wire_classification_witness :
    ((from_wire sampleBuf (SockAddr.sa 0)).2.family = sa_family_t.AF_INET ↔
      isV4Mapped (sampleBuf.bytesAt sampleBuf.pos 16)) ∧
    (¬ isV4Mapped (sampleBuf.bytesAt sampleBuf.pos 16) →
      (from_wire sampleBuf (SockAddr.sa 0)).2.family = sa_family_t.AF_INET6) ∧
    (sampleBuf.bytesAt sampleBuf.pos 16 = List.replicate 16 0 →
      (from_wire sampleBuf (SockAddr.sa 0)).2.family = sa_family_t.AF_INET6) :=
  from_wire_classification sampleBuf (SockAddr.sa 0) (by decide) (by decide)

/-- C3: for every IPv4 address and every un-faulted buffer with at least 16 bytes
available, after `to_wire` the 16 bytes starting at the old cursor are ten zero
bytes, then 0xFF, 0xFF, then the four address bytes in order, whatever the
buffer held before. -/
theorem to_wire_in4_shape (b : Buffer) (a : sockaddr_in)
    (_herr : b.err = false) (hsz : 16 ≤ b.size) :
    (to_wire b (SockAddr.in4 a)).bytesAt b.pos 16
      = List.replicate 10 0 ++ [0xff, 0xff] ++ a.sin_addr.val :=
  to_wire_in4_window b a hsz

theorem to_wire_in4_shape_witness :
    (to_wire sampleBuf (SockAddr.in4 sampleIn4)).bytesAt sampleBuf.pos 16
      = [0, 0, 0, 0, 0, 0, 0, 0, 0, 0, 0xff, 0xff, 192, 168, 1, 2] :=
  to_wire_in4_shape sampleBuf sampleIn4 (by decide) (by decide)

/-- C4 (as stated, refuted): on a buffer with only four bytes available
`ensure(16)` fails, the fault flag is set, and both `to_wire` and `from_wire`
return with the cursor where it was, not 16 bytes further. -/
theorem cursor_on_failure_counterexample :
    (shortBuf.ensure 16).1 = false ∧
    (to_wire shortBuf (SockAddr.in4 sampleIn4)).err = true ∧
    (to_wire shortBuf (SockAddr.in4 sampleIn4)).pos ≠ shortBuf.pos + 16 ∧
    (from_wire shortBuf (SockAddr.sa 0)).1.err = true ∧
    (from_wire shortBuf (SockAddr.sa 0)).1.pos ≠ shortBuf.pos + 16 := by
  decide

/-- C4 (amended): for every buffer and address, when `ensure(16)` succeeds both
`to_wire` and `from_wire` leave the cursor exactly 16 bytes past where it was on
entry; when `ensure(16)` fails both set the fault flag and leave the cursor
where it was. -/
theorem cursor_after_codec (b : Buffer) (a v : SockAddr) :
    ((b.ensure 16).1 = true →
      (to_wire b a).pos = b.pos + 16 ∧ (from_wire b v).1.pos = b.pos + 16) ∧
    ((b.ensure 16).1 = false →
      (to_wire b a).pos = b.pos ∧ (to_wire b a).err = true ∧
      (from_wire b v).1.pos = b.pos ∧ (from_wire b v).1.err = true) := by
  constructor
  · intro h
    have hsz : 16 ≤ b.size := by simpa [Buffer.ensure_fst] using h
    constructor
    · cases a with
      | in4 a4 => rw [to_wire_in4_eq b a4 hsz]
      | in6 a6 => rw [to_wire_in6_eq b a6 hsz]
      | sa c => rw [to_wire_sa_eq b c hsz]; rfl
    · rw [from_wire_eq b v hsz]; rfl
  · intro h
    have hsz : b.size < 16 := by simpa [Buffer.ensure_fst] using h
    rw [to_wire_fail b a hsz, from_wire_fail b v hsz]
    exact ⟨rfl, rfl, rfl, rfl⟩

theorem cursor_after_codec_witness :
    (to_wire sampleBuf (SockAddr.in4 sampleIn4)).pos = sampleBuf.pos + 16 ∧
    (from_wire sampleBuf (SockAddr.sa 0)).1.pos = sampleBuf.pos + 16 :=
  (cursor_after_codec sampleBuf (SockAddr.in4 sampleIn4) (SockAddr.sa 0)).1 (by decide)

/-- C5: for every IPv6 address and every un-faulted buffer with at least 16 bytes
available, after `to_wire` the 16 bytes starting at the old cursor equal the 16
address bytes. -/
theorem to_wire_in6_verbatim (b : Buffer) (a : sockaddr_in6)
    (_herr : b.err = false) (hsz : 16 ≤ b.size) :
    (to_wire b (SockAddr.in6 a)).bytesAt b.pos 16 = a.sin6_addr.val :=
  to_wire_in6_window b a hsz

theorem to_wire_in6_verbatim_witness :
    (to_wire sampleBuf (SockAddr.in6 sampleIn6)).bytesAt sampleBuf.pos 16
      = [0x20, 0x01, 0x0d, 0xb8, 0, 0, 0, 0, 0, 0, 0, 0, 0, 0, 0, 1] :=
  to_wire_in6_verbatim sampleBuf sampleIn6 (by decide) (by decide)

/-- C6: when `ensure(16)` succeeds the address produced by `from_wire` is
determined by the 16 wire bytes alone: a field with the IPv4-mapped marker gives
an IPv4 address with wire bytes 12..15 and port zero; any other field gives an
IPv6 address with wire bytes 0..15 and port, flow info and scope id zero; the
value held by the address variable before the call plays no part. -/
theorem from_wire_decoded (b : Buffer) (v : SockAddr) (hok : (b.ensure 16).1 = true) :
    (isV4Mapped (b.bytesAt b.pos 16) →
      ∃ a : sockaddr_in, (from_wire b v).2 = SockAddr.in4 a ∧
        (from_wire b v).2.family = sa_family_t.AF_INET ∧ a.sin_port = 0 ∧
        a.sin_addr.val = (b.bytesAt b.pos 16).drop 12) ∧
    (¬ isV4Mapped (b.bytesAt b.pos 16) →
      ∃ a : sockaddr_in6, (from_wire b v).2 = SockAddr.in6 a ∧
        (from_wire b v).2.family = sa_family_t.AF_INET6 ∧ a.sin6_port = 0 ∧
        a.sin6_flowinfo = 0 ∧ a.sin6_scope_id = 0 ∧
        a.sin6_addr.val = b.bytesAt b.pos 16) ∧
    (∀ (b2 : Buffer) (v2 : SockAddr), (b2.ensure 16).1 = true →
      b2.bytesAt b2.pos 16 = b.bytesAt b.pos 16 → (from_wire b2 v2).2 = (from_wire b v).2) := by
  have hsz : 16 ≤ b.size := by simpa [Buffer.ensure_fst] using hok
  refine ⟨fun hm => ?_, fun hm => ?_, fun b2 v2 hok2 hw => ?_⟩
  · obtain ⟨a, ha, hp, hval⟩ := from_wire_mapped b v hsz hm
    exact ⟨a, ha, by rw [ha]; rfl, hp, hval⟩
  · obtain ⟨a, ha, hp, hf, hs, hval⟩ := from_wire_unmapped b v hsz hm
    exact ⟨a, ha, by rw [ha]; rfl, hp, hf, hs, hval⟩
  · have hsz2 : 16 ≤ b2.size := by simpa [Buffer.ensure_fst] using hok2
    by_cases hm : isV4Mapped (b.bytesAt b.pos 16)
    · obtain ⟨a, ha, hp, hval⟩ := from_wire_mapped b v hsz hm
      obtain ⟨a2, ha2, hp2, hval2⟩ := from_wire_mapped b2 v2 hsz2 (by rw [hw]; exact hm)
      rw [ha, ha2]
      obtain ⟨p, s⟩ := a
      obtain ⟨p2, s2⟩ := a2
      simp only at hp hp2 hval hval2
      have hs : s2 = s := Subtype.ext (by rw [hval2, hval, hw])
      rw [hp, hp2, hs]
    · obtain ⟨a, ha, hp, hf, hs, hval⟩ := from_wire_unmapped b v hsz hm
      obtain ⟨a2, ha2, hp2, hf2, hs2, hval2⟩ :=
        from_wire_unmapped b2 v2 hsz2 (by rw [hw]; exact hm)
      rw [ha, ha2]
      obtain ⟨p, f, s, c⟩ := a
      obtain ⟨p2, f2, s2, c2⟩ := a2
      simp only at hp hp2 hf hf2 hs hs2 hval hval2
      have hss : s2 = s := Subtype.ext (by rw [hval2, hval, hw])
      rw [hp, hp2, hf, hf2, hs, hs2, hss]

theorem from_wire_decoded_witness :
    ∃ a : sockaddr_in6,
      (from_wire sampleBuf (SockAddr.in4 sampleIn4)).2 = SockAddr.in6 a ∧
      (from_wire sampleBuf (SockAddr.in4 sampleIn4)).2.family = sa_family_t.AF_INET6 ∧
      a.sin6_port = 0 ∧ a.sin6_flowinfo = 0 ∧ a.sin6_scope_id = 0 ∧
      a.sin6_addr.val = sampleBuf.bytesAt sampleBuf.pos 16 :=
  (from_wire_decoded sampleBuf (SockAddr.in4 sampleIn4) (by decide)).2.1 (by decide)

/-- C7: for every buffer on which `ensure(16)` fails and every prior address
value `v`, after `from_wire` the address still equals `v`. -/
theorem from_wire_failure_keeps_address (b : Buffer) (v : SockAddr)
    (hfail : (b.ensure 16).1 = false) : (from_wire b v).2 = v := by
  have hsz : b.size < 16 := by simpa [Buffer.ensure_fst] using hfail
  rw [from_wire_fail b v hsz]

theorem from_wire_failure_keeps_address_witness :
    (from_wire shortBuf (SockAddr.in6 sampleIn6)).2 = SockAddr.in6 sampleIn6 :=
  from_wire_failure_keeps_address shortBuf (SockAddr.in6 sampleIn6) (by decide)

/-- C8: for both `to_wire` and `from_wire` the fault flag after the call is set
exactly when it was set before the call or fewer than 16 bytes were available,
which is exactly when `ensure(16)` failed or the flag was already set. -/
theorem fault_flag_sticky (b : Buffer) (a v : SockAddr) :
    ((to_wire b a).err = true ↔ (b.err = true ∨ b.size < 16)) ∧
    ((from_wire b v).1.err = true ↔ (b.err = true ∨ b.size < 16)) ∧
    ((b.ensure 16).1 = false ↔ b.size < 16) := by
  refine ⟨?_, ?_, by simp [Buffer.ensure_fst]⟩
  · by_cases hsz : 16 ≤ b.size
    · have hnot : ¬ b.size < 16 := Nat.not_lt.mpr hsz
      cases a with
      | in4 a4 => rw [to_wire_in4_eq b a4 hsz]; simp [hnot]
      | in6 a6 => rw [to_wire_in6_eq b a6 hsz]; simp [hnot]
      | sa c => rw [to_wire_sa_eq b c hsz]; simp [hnot, Buffer._skip]
    · have hlt : b.size < 16 := Nat.lt_of_not_le hsz
      rw [to_wire_fail b a hlt]; simp [hlt, Buffer.fault]
  · by_cases hsz : 16 ≤ b.size
    · have hnot : ¬ b.size < 16 := Nat.not_lt.mpr hsz
      rw [from_wire_eq b v hsz]; simp [hnot, Buffer._skip]
    · have hlt : b.size < 16 := Nat.lt_of_not_le hsz
      rw [from_wire_fail b v hlt]; simp [hlt, Buffer.fault]

/-- C9: constructing an `owned_ptr` from a pointer fails with `std::bad_alloc`
exactly when the pointer is null; from a non-null pointer the construction
succeeds and the handle holds that very pointer, so it tests non-null. -/
theorem owned_ptr_ctor (p : Nat) :
    (owned_ptr p = Except.error Exception.bad_alloc ↔ p = 0) ∧
    (p ≠ 0 → ∃ h : unique_ptr, owned_ptr p = Except.ok h ∧ h.ptr = p ∧ h.ptr ≠ 0 ∧
      h.toBool = true) := by
  by_cases hp : p = 0
  · subst hp
    exact ⟨⟨fun _ => rfl, fun _ => rfl⟩, fun h => absurd rfl h⟩
  · have hok : owned_ptr p = Except.ok { ptr := p } := by
      simp [owned_ptr, unique_ptr.toBool, hp]
    refine ⟨⟨fun h => ?_, fun h => absurd h hp⟩, fun _ => ⟨{ ptr := p }, hok, rfl, hp, ?_⟩⟩
    · rw [hok] at h; cases h
    · simp [unique_ptr.toBool, hp]

theorem owned_ptr_ctor_witness :
    ∃ h : unique_ptr, owned_ptr 4096 = Except.ok h ∧ h.ptr = 4096 ∧ h.ptr ≠ 0 ∧
      h.toBool = true :=
  (owned_ptr_ctor 4096).2 (by decide)

/-! ## Further auxiliary facts: re-encoding and the frame of the codec -/

/-- A field with the IPv4-mapped marker is its marker followed by its
last four octets. -/
theorem mapped_field_eq (w : List Byte) (hm : isV4Mapped w) :
    List.replicate 10 0 ++ [0xff, 0xff] ++ w.drop 12 = w := by
  obtain ⟨h, h10, h11⟩ := hm
  have htake : w.take 12 = List.replicate 10 0 ++ [0xff, 0xff] := by
    apply List.ext_getElem?
    intro i
    rw [List.getElem?_take]
    by_cases hi : i < 12
    · rw [if_pos hi]
      by_cases hi10 : i < 10
      · rw [h i hi10]
        interval_cases i <;> rfl
      · have : i = 10 ∨ i = 11 := by omega
        rcases this with rfl | rfl
        · rw [h10]; rfl
        · rw [h11]; rfl
    · rw [if_neg hi]
      exact (List.getElem?_eq_none (by simp; omega)).symm
  rw [← htake, List.take_append_drop]

/-- Outside the destination range a bulk copy leaves every octet as it was. -/
theorem getElem?_poke_outside (src d : List Byte) (dst j : Nat)
    (h : dst + src.length ≤ d.length) (hj : j < dst ∨ dst + src.length ≤ j) :
    (poke d dst src)[j]? = d[j]? := by
  rw [getElem?_poke src d dst j h]
  have : ¬ (dst ≤ j ∧ j < dst + src.length) := by omega
  rw [if_neg this]

theorem to_wire_data_length (b : Buffer) (a : SockAddr) :
    (to_wire b a).data.length = b.data.length := by
  by_cases hsz : 16 ≤ b.size
  · cases a with
    | in4 a4 => rw [to_wire_in4_eq b a4 hsz]; exact length_poke _ _ _
    | in6 a6 => rw [to_wire_in6_eq b a6 hsz]; exact length_poke _ _ _
    | sa c => rw [to_wire_sa_eq b c hsz]; rfl
  · rw [to_wire_fail b a (Nat.lt_of_not_le hsz)]; rfl

theorem to_wire_frame (b : Buffer) (a : SockAddr) (j : Nat)
    (hj : j < b.pos ∨ b.pos + 16 ≤ j) : (to_wire b a).data[j]? = b.data[j]? := by
  by_cases hsz : 16 ≤ b.size
  · have hlen := b.le_length_of_size 16 (by decide) hsz
    cases a with
    | in4 a4 =>
      rw [to_wire_in4_eq b a4 hsz]
      have h16 : (List.replicate 10 (0 : Byte) ++ [0xff, 0xff] ++ a4.sin_addr.val).length = 16 := by
        simp [a4.sin_addr.property]
      exact getElem?_poke_outside _ _ _ _ (by rw [h16]; exact hlen) (by rw [h16]; exact hj)
    | in6 a6 =>
      rw [to_wire_in6_eq b a6 hsz]
      exact getElem?_poke_outside _ _ _ _ (by rw [a6.sin6_addr.property]; exact hlen)
        (by rw [a6.sin6_addr.property]; exact hj)
    | sa c => rw [to_wire_sa_eq b c hsz]; rfl
  · rw [to_wire_fail b a (Nat.lt_of_not_le hsz)]; rfl

theorem from_wire_data (b : Buffer) (v : SockAddr) : (from_wire b v).1.data = b.data := by
  by_cases hsz : 16 ≤ b.size
  · rw [from_wire_eq b v hsz]; rfl
  · rw [from_wire_fail b v (Nat.lt_of_not_le hsz)]; rfl

theorem to_wire_reencode (b rd : Buffer) (v : SockAddr) (hsz : 16 ≤ b.size)
    (hrsz : 16 ≤ rd.size) :
    (to_wire b (from_wire rd v).2).bytesAt b.pos 16 = rd.bytesAt rd.pos 16 := by
  by_cases hm : isV4Mapped (rd.bytesAt rd.pos 16)
  · obtain ⟨a, ha, _, hval⟩ := from_wire_mapped rd v hrsz hm
    rw [ha, to_wire_in4_window b a hsz, hval]
    exact mapped_field_eq _ hm
  · obtain ⟨a, ha, _, _, _, hval⟩ := from_wire_unmapped rd v hrsz hm
    rw [ha, to_wire_in6_window b a hsz, hval]

/-- C11: a default-constructed `evsocket` holds the invalid descriptor -1 and its
validity test returns false; for every `evsocket` the validity test returns true
if and only if its descriptor is not -1. -/
theorem evsocket_validity :
    evsocket.construct.sock = -1 ∧ evsocket.construct.toBool = false ∧
    ∀ s : evsocket, s.toBool = true ↔ s.sock ≠ -1 := by
  refine ⟨rfl, rfl, fun s => ?_⟩
  simp [evsocket.toBool]

/-- C12: for every 16-byte field `w` held at the cursor of an un-faulted buffer,
decoding it with `from_wire` and encoding the resulting address with `to_wire`
into an un-faulted buffer with at least 16 bytes available writes exactly the
bytes `w`, whether or not `w` carries the IPv4-mapped marker. -/
theorem from_wire_to_wire_identity (rd b : Buffer) (v : SockAddr) (w : Bytes 16)
    (_hrerr : rd.err = false) (hrsz : 16 ≤ rd.size) (hw : rd.bytesAt rd.pos 16 = w.val)
    (_herr : b.err = false) (hsz : 16 ≤ b.size) :
    (to_wire b (from_wire rd v).2).bytesAt b.pos 16 = w.val := by
  rw [to_wire_reencode b rd v hsz hrsz, hw]

theorem from_wire_to_wire_identity_witness :
    (to_wire sampleBuf
        (from_wire (readBack sampleBuf (SockAddr.in4 sampleIn4)) (SockAddr.sa 0)).2).bytesAt
      sampleBuf.pos 16
      = [0, 0, 0, 0, 0, 0, 0, 0, 0, 0, 0xff, 0xff, 192, 168, 1, 2] :=
  from_wire_to_wire_identity (readBack sampleBuf (SockAddr.in4 sampleIn4)) sampleBuf
    (SockAddr.sa 0) ⟨[0, 0, 0, 0, 0, 0, 0, 0, 0, 0, 0xff, 0xff, 192, 168, 1, 2], rfl⟩
    (by decide) (by decide) (by decide) (by decide) (by decide)

/-- C13: for every address whose family is neither IPv4 nor IPv6 and every
un-faulted buffer with at least 16 bytes available, `to_wire` writes no byte
(the buffer bytes, the 16 at the cursor included, keep their contents), leaves
the fault flag clear and advances the cursor by 16. -/
theorem to_wire_other_family (b : Buffer) (a : SockAddr)
    (hfam4 : a.family ≠ sa_family_t.AF_INET) (hfam6 : a.family ≠ sa_family_t.AF_INET6)
    (herr : b.err = false) (hsz : 16 ≤ b.size) :
    (to_wire b a).bytesAt b.pos 16 = b.bytesAt b.pos 16 ∧
    (to_wire b a).data = b.data ∧
    (to_wire b a).err = false ∧
    (to_wire b a).pos = b.pos + 16 := by
  cases a with
  | in4 a4 => exact absurd rfl hfam4
  | in6 a6 => exact absurd rfl hfam6
  | sa c =>
    rw [to_wire_sa_eq b c hsz]
    exact ⟨rfl, rfl, herr, rfl⟩

theorem to_wire_other_family_witness :
    (to_wire sampleBuf (SockAddr.sa 1)).bytesAt sampleBuf.pos 16
      = sampleBuf.bytesAt sampleBuf.pos 16 ∧
    (to_wire sampleBuf (SockAddr.sa 1)).data = sampleBuf.data ∧
    (to_wire sampleBuf (SockAddr.sa 1)).err = false ∧
    (to_wire sampleBuf (SockAddr.sa 1)).pos = sampleBuf.pos + 16 :=
  to_wire_other_family sampleBuf (SockAddr.sa 1) (by decide) (by decide) (by decide) (by decide)

/-- C14: for every buffer and address, `to_wire` changes no buffer byte outside
the 16-byte window starting at the entry cursor (and keeps the number of bytes),
changes no byte at all when `ensure(16)` fails, and `from_wire` changes no
buffer byte in any case. -/
theorem codec_frame (b : Buffer) (a v : SockAddr) :
    (∀ j, j < b.pos ∨ b.pos + 16 ≤ j → (to_wire b a).data[j]? = b.data[j]?) ∧
    (to_wire b a).data.length = b.data.length ∧
    ((b.ensure 16).1 = false → (to_wire b a).data = b.data) ∧
    (from_wire b v).1.data = b.data := by
  refine ⟨fun j hj => to_wire_frame b a j hj, to_wire_data_length b a, fun h => ?_,
    from_wire_data b v⟩
  have hsz : b.size < 16 := by simpa [Buffer.ensure_fst] using h
  rw [to_wire_fail b a hsz]; rfl

theorem codec_frame_witness :
    (to_wire shortBuf (SockAddr.in6 sampleIn6)).data = shortBuf.data :=
  (codec_frame shortBuf (SockAddr.in6 sampleIn6) (SockAddr.sa 0)).2.2.1 (by decide)

end pvxs
